import Mathlib

/-!
Shallow embedding of the recommendation engine in `src/Gemini/context.ts`
(the DevSpace repository): the history scorer `getUserPreferredCategories`,
the rule-based fallback `getFallbackRecommendations`, the AI-response
validation inside `getAIRecommendations`, the arbitration entry point
`getRecommendations`, the interaction recorder `trackUserInteraction`, and
the context-assembly/persistence adapter `getAppContextWithFallbacks`.

JavaScript runtime values produced by `JSON.parse` are modelled by the
inductive type `JVal`; JavaScript numbers are modelled as rationals (every
JSON numeric literal is a decimal rational, and all identifiers compared in
this code are small integers, so double rounding never matters here).
The generative-language backend is modelled by an explicit outcome value
(`AIOutcome`): either the call failed (any thrown error) or it resolved
with a response text.  Browser `localStorage` is modelled by the record
`LocalStore`; functions that write to it return the updated store.
-/

namespace DevSpace

/-- A JavaScript value as produced by `JSON.parse`, plus the two extra
values that appear during validation: `jundefined` (property access on a value
that lacks the property) and `jnan` (the `NaN` produced by a failed
`parseInt`). -/
inductive JVal where
  | jnull
  | jbool (b : Bool)
  | jnum (q : ℚ)
  | jstr (s : String)
  | jarr (elems : List JVal)
  | jobj (fields : List (String × JVal))
  | jundefined
  | jnan

/-- Product record (`interface Product` in the source).  Only the fields the
recommendation logic reads are kept: `product_id`, `name`, `category`.  The
remaining descriptive metadata (price, seller, location, unit, quantity,
harvest date, rating, image) is never consulted by any embedded operation.
Catalog identifiers are integers (spec data model: unique positive
integer). -/
structure Product where
  product_id : Int
  name : String
  category : String
deriving DecidableEq

/-- The three interaction kinds (`'click' | 'addToCart' | 'order'`). -/
inductive ActionKind where
  | click
  | addToCart
  | order
deriving DecidableEq

/-- Interaction record (`interface UserInteraction` in the source). -/
structure UserInteraction where
  id : Int
  name : String
  category : String
  timestamp : String
  action : ActionKind
deriving DecidableEq

/-- `appData` blob (`appData: { products: Product[] }`). -/
structure AppData where
  products : List Product
deriving DecidableEq

/-- Assembled request context (`interface AppContext`).  `userPreferences`
and `userHistory` are loose JSON blobs never inspected by the logic; they
are carried as opaque strings. -/
structure AppContext where
  userPreferences : String
  currentPage : String
  userHistory : String
  appData : AppData
  clickedItems : List UserInteraction
  cartItems : List UserInteraction
  mostOrderedItems : List UserInteraction
  categories : List String
deriving DecidableEq

/-- A recommendation (`interface Recommendation`).  After validation the
identifier is always a JavaScript number, modelled as `ℚ`; the reason is
whatever value the response carried (the fallback always puts a string
there). -/
structure Recommendation where
  productId : ℚ
  reason : JVal

/-- Provenance tag (`type: 'ai-powered' | 'fallback'`). -/
inductive ProvType where
  | aiPowered
  | fallback
deriving DecidableEq

/-- Result record (`interface RecommendationResult`).  The wall-clock
`timestamp` field is pure plumbing (`new Date().toISOString()`) and is
omitted. -/
structure RecommendationResult where
  recommendations : List Recommendation
  context : AppContext
  type : ProvType

/-- Outcome of the backend call `model.generateContent(prompt)`: either the
awaited call threw (network, quota, rate limit, ...) or it resolved with a
response text. -/
inductive AIOutcome where
  | failure
  | success (text : String)

/-! ## JavaScript string and number utilities -/

/-- Decimal digits to the natural number they denote. -/
def digitsToNat (ds : List Char) : Nat :=
  ds.foldl (fun n c => 10 * n + (c.toNat - 48)) 0

/-- Whitespace recognised while scanning (space, tab, newline, carriage
return). This is the exact JSON whitespace set; it also covers every
whitespace character that occurs in practice for `trim` and `parseInt`. -/
def isWsChar (c : Char) : Bool :=
  c = ' ' || c = '\t' || c = '\n' || c = '\r'

/-- `parseInt(s, 10)`: skip leading whitespace, optional sign, then the
longest run of decimal digits; `none` models `NaN` (no digits found).
Trailing characters are ignored, as in JavaScript. -/
def parseIntJS (s : String) : Option Int :=
  let cs := s.data.dropWhile isWsChar
  let signAndRest : Int × List Char :=
    match cs with
    | '-' :: rest => (-1, rest)
    | '+' :: rest => (1, rest)
    | _ => (1, cs)
  let ds := signAndRest.2.takeWhile Char.isDigit
  if ds.isEmpty then none
  else some (signAndRest.1 * (digitsToNat ds : Int))

/-- The code-fence markers removed by
`text.replace(/```json|```/g, '')`. -/
def fenceJson : List Char := "```json".data

/-- The bare code-fence marker. -/
def fenceMark : List Char := "```".data

/-- Global replacement of the regex ```` ```json|``` ```` by the empty
string: scan left to right, at each position matching the longer
alternative first (regex alternation order).  The fuel argument only
serves structural termination; every step consumes at least one character,
so fuel equal to the length never runs out. -/
def stripFencesGo : Nat → List Char → List Char
  | 0, cs => cs
  | fuel + 1, cs =>
    if fenceJson.isPrefixOf cs then stripFencesGo fuel (cs.drop 7)
    else if fenceMark.isPrefixOf cs then stripFencesGo fuel (cs.drop 3)
    else
      match cs with
      | [] => []
      | c :: rest => c :: stripFencesGo fuel rest

/-- Remove every occurrence of the code-fence markers. -/
def stripFences (cs : List Char) : List Char :=
  stripFencesGo cs.length cs

/-- `String.prototype.trim`: drop leading and trailing whitespace. -/
def jsTrim (cs : List Char) : List Char :=
  ((cs.dropWhile isWsChar).reverse.dropWhile isWsChar).reverse

/-- `text.replace(/```json|```/g, '').trim()`. -/
def cleanText (s : String) : String :=
  String.mk (jsTrim (stripFences s.data))

/-- `String.prototype.toLowerCase` (ASCII; the category labels of this
application are ASCII). -/
def jsToLower (s : String) : String :=
  String.mk (s.data.map Char.toLower)

/-! ## A JSON parser modelling `JSON.parse`

Recursive-descent parser over the character list, with a fuel argument for
termination (the fuel bound `4 * length + 4` dominates the number of
recursive calls on any input).  The grammar is RFC 8259 JSON: the four
whitespace characters, `null` / `true` / `false`, double-quoted strings
with the standard escapes, numbers with optional sign, fraction and
exponent (no leading zeros), arrays and objects without trailing commas.
Duplicate object keys keep the last value at the first key's position, as
JavaScript object construction does. -/

/-- Skip JSON whitespace. -/
def skipWs (cs : List Char) : List Char :=
  cs.dropWhile isWsChar

/-- Value of a hexadecimal digit, if any. -/
def hexVal (c : Char) : Option Nat :=
  if c.isDigit then some (c.toNat - 48)
  else if 'a' ≤ c ∧ c ≤ 'f' then some (c.toNat - 87)
  else if 'A' ≤ c ∧ c ≤ 'F' then some (c.toNat - 55)
  else none

/-- Parse the body of a JSON string (the opening quote already consumed),
returning the decoded string and the remaining input. -/
def parseStrBody (acc : List Char) : List Char → Option (String × List Char)
  | [] => none
  | '"' :: rest => some (String.mk acc.reverse, rest)
  | '\\' :: e :: rest =>
    match e with
    | '"' => parseStrBody ('"' :: acc) rest
    | '\\' => parseStrBody ('\\' :: acc) rest
    | '/' => parseStrBody ('/' :: acc) rest
    | 'b' => parseStrBody (Char.ofNat 8 :: acc) rest
    | 'f' => parseStrBody (Char.ofNat 12 :: acc) rest
    | 'n' => parseStrBody ('\n' :: acc) rest
    | 'r' => parseStrBody ('\r' :: acc) rest
    | 't' => parseStrBody ('\t' :: acc) rest
    | 'u' =>
      match rest with
      | a :: b :: c :: d :: rest2 =>
        match hexVal a, hexVal b, hexVal c, hexVal d with
        | some x, some y, some z, some w =>
          parseStrBody (Char.ofNat (((x * 16 + y) * 16 + z) * 16 + w) :: acc) rest2
        | _, _, _, _ => none
      | _ => none
    | _ => none
  | c :: rest => parseStrBody (c :: acc) rest

/-- Parse a JSON number (sign, integer part without leading zeros,
optional fraction, optional exponent) into a rational.  The value
`sign * intpart.fracpart * 10 ^ exp` is assembled as an exact integer
fraction via `Rat.divInt` (integer arithmetic only, so that concrete
inputs evaluate by kernel reduction). -/
def parseNum (cs : List Char) : Option (ℚ × List Char) :=
  let signAndRest : Int × List Char :=
    match cs with
    | '-' :: rest => (-1, rest)
    | _ => (1, cs)
  let cs1 := signAndRest.2
  let intDs := cs1.takeWhile Char.isDigit
  let rest1 := cs1.dropWhile Char.isDigit
  if intDs.isEmpty then none
  else if 1 < intDs.length ∧ intDs.head? = some '0' then none
  else
    let fracParsed : Option (List Char × List Char) :=
      match rest1 with
      | '.' :: r2 =>
        let fracDs := r2.takeWhile Char.isDigit
        if fracDs.isEmpty then none
        else some (fracDs, r2.dropWhile Char.isDigit)
      | _ => some ([], rest1)
    match fracParsed with
    | none => none
    | some (fracDs, rest2) =>
      let expParsed : Option (Int × List Char) :=
        match rest2 with
        | 'e' :: r3 | 'E' :: r3 =>
          let expSignAndRest : Int × List Char :=
            match r3 with
            | '-' :: r4 => (-1, r4)
            | '+' :: r4 => (1, r4)
            | _ => (1, r3)
          let expDs := expSignAndRest.2.takeWhile Char.isDigit
          if expDs.isEmpty then none
          else some (expSignAndRest.1 * (digitsToNat expDs : Int),
                     expSignAndRest.2.dropWhile Char.isDigit)
        | _ => some (0, rest2)
      match expParsed with
      | none => none
      | some (e, rest3) =>
        let mantissa : Int :=
          signAndRest.1 * (digitsToNat (intDs ++ fracDs) : Int)
        let scale : Int := e - (fracDs.length : Int)
        let q : ℚ :=
          if 0 ≤ scale then Rat.divInt (mantissa * 10 ^ scale.toNat) 1
          else Rat.divInt mantissa (10 ^ (-scale).toNat)
        some (q, rest3)

/-- Insert a key/value pair into an object under construction: a duplicate
key overwrites the value in place (JavaScript object semantics), a new key
is appended. -/
def objInsert (fs : List (String × JVal)) (k : String) (v : JVal) :
    List (String × JVal) :=
  if fs.any (fun kv => kv.1 == k) then
    fs.map (fun kv => if kv.1 == k then (kv.1, v) else kv)
  else fs ++ [(k, v)]

mutual

/-- Parse one JSON value. -/
def parseVal : Nat → List Char → Option (JVal × List Char)
  | 0, _ => none
  | fuel + 1, cs =>
    match skipWs cs with
    | 'n' :: 'u' :: 'l' :: 'l' :: r => some (.jnull, r)
    | 't' :: 'r' :: 'u' :: 'e' :: r => some (.jbool true, r)
    | 'f' :: 'a' :: 'l' :: 's' :: 'e' :: r => some (.jbool false, r)
    | '"' :: r =>
      match parseStrBody [] r with
      | some (s, r2) => some (.jstr s, r2)
      | none => none
    | '[' :: r =>
      match skipWs r with
      | ']' :: r2 => some (.jarr [], r2)
      | cs2 => parseArrItems fuel cs2 []
    | '{' :: r =>
      match skipWs r with
      | '}' :: r2 => some (.jobj [], r2)
      | cs2 => parseObjItems fuel cs2 []
    | cs2 =>
      match parseNum cs2 with
      | some (q, r) => some (.jnum q, r)
      | none => none

/-- Parse the elements of a non-empty array (after `[`); trailing commas
are rejected because a value is required after every comma. -/
def parseArrItems : Nat → List Char → List JVal → Option (JVal × List Char)
  | 0, _, _ => none
  | fuel + 1, cs, acc =>
    match parseVal fuel cs with
    | some (v, r) =>
      match skipWs r with
      | ',' :: r2 => parseArrItems fuel (skipWs r2) (v :: acc)
      | ']' :: r2 => some (.jarr (v :: acc).reverse, r2)
      | _ => none
    | none => none

/-- Parse the members of a non-empty object (after `\x7b`). -/
def parseObjItems : Nat → List Char → List (String × JVal) →
    Option (JVal × List Char)
  | 0, _, _ => none
  | fuel + 1, cs, acc =>
    match cs with
    | '"' :: r =>
      match parseStrBody [] r with
      | some (k, r2) =>
        match skipWs r2 with
        | ':' :: r3 =>
          match parseVal fuel (skipWs r3) with
          | some (v, r4) =>
            match skipWs r4 with
            | ',' :: r5 => parseObjItems fuel (skipWs r5) (objInsert acc k v)
            | '}' :: r5 => some (.jobj (objInsert acc k v), r5)
            | _ => none
          | none => none
        | _ => none
      | none => none
    | _ => none

end

/-- `JSON.parse`: parse one value and require only whitespace after it. -/
def parseJson (s : String) : Option JVal :=
  match parseVal (4 * s.length + 4) s.data with
  | some (v, r) => if (skipWs r).isEmpty then some v else none
  | none => none

/-! ## AI-response validation (`getAIRecommendations`, lines 185-216) -/

/-- Property access `e.k` on a parsed value: field lookup on objects,
`undefined` on primitives (numbers, strings, booleans).  Access on `null`
throws in JavaScript; that case is handled separately by
`validateAIEntries`. -/
def getField (e : JVal) (k : String) : JVal :=
  match e with
  | .jobj fs => ((fs.find? (fun kv => kv.1 == k)).map (fun kv => kv.2)).getD .jundefined
  | _ => .jundefined

/-- The coercion step of the validation `map`:
`typeof rec.productId === 'string' ? parseInt(rec.productId, 10) : rec.productId`. -/
def coercePid : JVal → JVal
  | .jstr s =>
    match parseIntJS s with
    | some n => .jnum (n : ℚ)
    | none => .jnan
  | v => v

/-- The validation `filter`:
`!isNaN(rec.productId) && rec.productId > 0 && products.some(p => p.product_id === rec.productId)`.
When the coerced identifier is not a number the whole test is false in
JavaScript as well: `NaN` and `undefined` fail the `isNaN` test, `null`
and `false` fail `> 0`, and the remaining truthy oddities (`true`,
single-element arrays) pass `> 0` by `ToNumber` coercion but fail the
strict-equality catalog check, which never equates values of different
types.  So only `jnum` survives, and the observable surviving set is
exactly as coded here. -/
def keepEntry (products : List Product) (e : JVal) : Option Recommendation :=
  match coercePid (getField e "productId") with
  | .jnum q =>
    if (decide (0 < q) && products.any fun p => decide ((p.product_id : ℚ) = q)) = true
    then some ⟨q, getField e "reason"⟩
    else none
  | _ => none

/-- `true` when the array has a `null` element: the validation `map` then
evaluates `null.productId`, which throws a `TypeError`; the surrounding
`catch (parseError)` turns the whole validation into a failure. -/
def hasNullEntry (entries : List JVal) : Bool :=
  entries.any fun e =>
    match e with
    | .jnull => true
    | _ => false

/-- Validation of the parsed response array: `none` models the thrown
`TypeError` on a `null` element (caught upstream), otherwise the list of
surviving entries with coerced identifiers. -/
def validateAIEntries (products : List Product) (entries : List JVal) :
    Option (List Recommendation) :=
  if hasNullEntry entries then none
  else some (entries.filterMap (keepEntry products))

/-- The whole validation step applied to the raw response text: strip
code fences and trim, `JSON.parse`, require an array (on any non-array
value the subsequent `.map` throws a `TypeError`, caught by the same
`catch`), then validate the entries.  `none` collects every caught
failure. -/
def aiValidate (products : List Product) (text : String) :
    Option (List Recommendation) :=
  match parseJson (cleanText text) with
  | some (.jarr entries) => validateAIEntries products entries
  | _ => none

/-! ## HistoryScorer (`getUserPreferredCategories`, lines 112-132) -/

/-- `acc[category] = (acc[category] || 0) + 1` on the accumulator object:
bump the existing property in place, or append a new one. -/
def bump : List (String × Nat) → String → List (String × Nat)
  | [], c => [(c, 1)]
  | kv :: rest, c =>
    if kv.1 = c then (kv.1, kv.2 + 1) :: rest else kv :: bump rest c

/-- Stable insertion (descending by count) implementing the stable
`Array.prototype.sort` with comparator `(a, b) => b.count - a.count`:
an element moves past exactly the entries with a strictly smaller count,
so ties keep their previous relative order (ECMAScript sorts are
stable). -/
def insertByCount (x : String × Nat) : List (String × Nat) → List (String × Nat)
  | [] => [x]
  | y :: ys => if y.2 ≤ x.2 then x :: y :: ys else y :: insertByCount x ys

/-- Stable sort by descending count. -/
def sortByCountDesc : List (String × Nat) → List (String × Nat)
  | [] => []
  | x :: xs => insertByCount x (sortByCountDesc xs)

/-- `true` when the string is a canonical array-index property key
(digits only, no leading zero unless it is "0", value below 2^32 - 1).
`Object.entries` enumerates such keys before all other string keys, in
ascending numeric order. -/
def isArrayIndexKey (s : String) : Bool :=
  match s.data with
  | [] => false
  | c :: cs =>
    (c :: cs).all Char.isDigit && (c != '0' || cs.isEmpty) &&
      decide (digitsToNat (c :: cs) < 4294967295)

/-- Insertion into the ascending-by-numeric-value prefix of the
enumeration order (keys are distinct, so ties cannot occur). -/
def insertIdxAsc (x : String × Nat) : List (String × Nat) → List (String × Nat)
  | [] => [x]
  | y :: ys =>
    if digitsToNat x.1.data < digitsToNat y.1.data then x :: y :: ys
    else y :: insertIdxAsc x ys

/-- Sort array-index keys ascending by numeric value. -/
def sortIdxAsc : List (String × Nat) → List (String × Nat)
  | [] => []
  | x :: xs => insertIdxAsc x (sortIdxAsc xs)

/-- The enumeration order of `Object.entries` over the count table:
canonical array-index keys first in ascending numeric order, then the
remaining keys in insertion order. -/
def entriesOrder (fs : List (String × Nat)) : List (String × Nat) :=
  sortIdxAsc (fs.filter fun kv => isArrayIndexKey kv.1) ++
    fs.filter fun kv => !isArrayIndexKey kv.1

/-- The history scorer: concatenate the three streams, keep the truthy
(non-empty) category labels, build the count table, enumerate it in
`Object.entries` order, stable-sort by descending count, take the first 6
categories. -/
def getUserPreferredCategories
    (clicked cart ordered : List UserInteraction) : List String :=
  let allItems := clicked ++ cart ++ ordered
  let categories := (allItems.map fun i => i.category).filter fun c => c != ""
  let categoryCount := categories.foldl bump []
  ((sortByCountDesc (entriesOrder categoryCount)).take 6).map fun kv => kv.1

/-! ## Rule-based fallback (`getFallbackRecommendations`, lines 242-275) -/

/-- The `userInteractedProducts` set: identifiers from all three streams
(JavaScript `Set` membership coincides with list membership). -/
def interactedIds (ctx : AppContext) : List Int :=
  (ctx.clickedItems.map fun i => i.id) ++ (ctx.cartItems.map fun i => i.id) ++
    (ctx.mostOrderedItems.map fun i => i.id)

/-- The rule-based fallback: with preferred categories, the first 5
non-interacted catalog products in a preferred category; otherwise the
first 5 non-interacted catalog products. -/
def getFallbackRecommendations (ctx : AppContext) : List Recommendation :=
  let allProducts := ctx.appData.products
  let interacted := interactedIds ctx
  if 0 < ctx.categories.length then
    (((allProducts.filter fun p => !(interacted.contains p.product_id)).filter
        fun p => ctx.categories.contains p.category).take 5).map
      fun p => ⟨(p.product_id : ℚ),
        .jstr ("Recommended based on your interest in " ++ p.category)⟩
  else
    ((allProducts.filter fun p => !(interacted.contains p.product_id)).take 5).map
      fun p => ⟨(p.product_id : ℚ),
        .jstr ("Popular " ++ jsToLower p.category ++ " item")⟩

/-! ## AI path and arbitration (`getAIRecommendations`, `getRecommendations`) -/

/-- `getAIRecommendations`: without a configured backend handle
(`!model || !apiKey`) it returns the fallback immediately; otherwise the
backend outcome decides: a thrown call error, a validation failure or an
empty surviving list all collapse to the fallback, and a non-empty
surviving list is returned as is. -/
def getAIRecommendations (ctx : AppContext) (configured : Bool)
    (outcome : AIOutcome) : List Recommendation :=
  if configured then
    match outcome with
    | .failure => getFallbackRecommendations ctx
    | .success text =>
      match aiValidate ctx.appData.products text with
      | some valid =>
        if 0 < valid.length then valid else getFallbackRecommendations ctx
      | none => getFallbackRecommendations ctx
  else getFallbackRecommendations ctx

/-- `getRecommendations` on an explicitly supplied context: the cold-start
check short-circuits to the sample recommendations with provenance
`fallback`; every other request awaits `getAIRecommendations` and tags the
result `ai-powered`.  (The surrounding `try/catch` can only fire when
context assembly itself throws; with a supplied well-typed context no
statement in the body throws, so the catch branch is unreachable here.) -/
def getRecommendations (ctx : AppContext) (configured : Bool)
    (outcome : AIOutcome) : RecommendationResult :=
  if ctx.clickedItems.length = 0 ∧ ctx.cartItems.length = 0 ∧
      ctx.mostOrderedItems.length = 0 then
    { recommendations :=
        (ctx.appData.products.take 5).map fun p =>
          ⟨(p.product_id : ℚ),
            .jstr ("Popular " ++ jsToLower p.category ++ " item - great for new customers!")⟩
      context := ctx
      type := .fallback }
  else
    { recommendations := getAIRecommendations ctx configured outcome
      context := ctx
      type := .aiPowered }

/-! ## Persistence layer (`localStorage`) and the interaction recorder -/

/-- The browser-local key-value store: one field per namespace used by the
source (`userPreferences`, `userHistory`, `appData`, `clickedItems`,
`cartItems`, `mostOrderedItems`), holding the parsed values. -/
structure LocalStore where
  userPreferences : String
  userHistory : String
  appDataProducts : List Product
  clickedItems : List UserInteraction
  cartItems : List UserInteraction
  mostOrderedItems : List UserInteraction
deriving DecidableEq

/-- The five sample products seeded when no catalog exists (only the
fields the logic reads). -/
def sampleProducts : List Product :=
  [⟨1, "Fresh Apples", "Fruits"⟩,
   ⟨2, "Organic Bananas", "Fruits"⟩,
   ⟨3, "Fresh Spinach", "Vegetables"⟩,
   ⟨4, "Whole Milk", "Dairy"⟩,
   ⟨5, "Chicken Breast", "Meat"⟩]

/-- `getAppContextWithFallbacks`: read the store, substitute the sample
catalog when the stored one is empty — and in exactly that case write the
sample catalog back to the `appData` blob.  Returns the assembled context
and the (possibly updated) store. -/
def getAppContextWithFallbacks (page : String) (st : LocalStore) :
    AppContext × LocalStore :=
  let productsWithFallback :=
    if 0 < st.appDataProducts.length then st.appDataProducts else sampleProducts
  let st' :=
    if st.appDataProducts.length = 0 then
      { st with appDataProducts := productsWithFallback }
    else st
  ({ userPreferences := st.userPreferences
     currentPage := page
     userHistory := st.userHistory
     appData := ⟨productsWithFallback⟩
     clickedItems := st.clickedItems
     cartItems := st.cartItems
     mostOrderedItems := st.mostOrderedItems
     categories := getUserPreferredCategories st.clickedItems st.cartItems
       st.mostOrderedItems }, st')

/-- `getRecommendations()` called without an explicit context: assemble the
context from the store (possibly seeding the catalog blob) and run the
arbitration on it. -/
def getRecommendationsFromStore (page : String) (configured : Bool)
    (outcome : AIOutcome) (st : LocalStore) :
    RecommendationResult × LocalStore :=
  let assembled := getAppContextWithFallbacks page st
  (getRecommendations assembled.1 configured outcome, assembled.2)

/-- The item payload of `trackUserInteraction`
(`Omit<UserInteraction, 'timestamp' | 'action'>`). -/
structure TrackItem where
  id : Int
  name : String
  category : String
deriving DecidableEq

/-- The last `n` elements of a list (`Array.prototype.slice(-n)` for a
positive `n`): the whole list when it is shorter. -/
def takeLast (n : Nat) (l : List α) : List α :=
  l.drop (l.length - n)

/-- `trackUserInteraction`: build the interaction record (timestamp from
the clock, passed explicitly here) and append it to the collection for its
action kind; only the `clickedItems` collection is trimmed, to its last 50
entries. -/
def trackUserInteraction (st : LocalStore) (action : ActionKind)
    (item : TrackItem) (timestamp : String) : LocalStore :=
  let interaction : UserInteraction :=
    ⟨item.id, item.name, item.category, timestamp, action⟩
  match action with
  | .click =>
    { st with clickedItems := takeLast 50 (st.clickedItems ++ [interaction]) }
  | .addToCart => { st with cartItems := st.cartItems ++ [interaction] }
  | .order =>
    { st with mostOrderedItems := st.mostOrderedItems ++ [interaction] }

/-- One recorded UI event: the arguments of a `trackUserInteraction`
call. -/
structure TrackEvent where
  action : ActionKind
  item : TrackItem
  timestamp : String
deriving DecidableEq

/-- The interaction record a tracking event produces. -/
def TrackEvent.interaction (e : TrackEvent) : UserInteraction :=
  ⟨e.item.id, e.item.name, e.item.category, e.timestamp, e.action⟩

/-- Run a sequence of tracking calls against a store. -/
def runTrack (st : LocalStore) (evs : List TrackEvent) : LocalStore :=
  evs.foldl (fun s e => trackUserInteraction s e.action e.item e.timestamp) st

/-- The interaction records of the events of one action kind, in order. -/
def eventsOf (k : ActionKind) (evs : List TrackEvent) : List UserInteraction :=
  (evs.filter fun e => e.action == k).map TrackEvent.interaction


/-! ## Concrete fixtures used by counterexamples and witnesses -/

/-- A context whose user has clicked one product (id 1, category Fruits),
over the sample catalog, with preferred categories computed from that
history. -/
def ctxClicked : AppContext :=
  ⟨"", "/", "", ⟨sampleProducts⟩,
    [⟨1, "Fresh Apples", "Fruits", "2024-01-01", .click⟩], [], [], ["Fruits"]⟩

/-- A cold-start context: sample catalog, no interactions at all. -/
def ctxCold : AppContext :=
  ⟨"", "/", "", ⟨sampleProducts⟩, [], [], [], []⟩

/-- A store holding the sample catalog and nothing else. -/
def seededStore : LocalStore := ⟨"", "", sampleProducts, [], [], []⟩

/-- A store with an empty catalog blob. -/
def emptyCatalogStore : LocalStore := ⟨"", "", [], [], [], []⟩

/-! ## Shared helper lemmas -/

/-- The recommendation list of the arbitration result, path by path. -/
lemma getRecommendations_recs (ctx : AppContext) (configured : Bool)
    (outcome : AIOutcome) :
    (getRecommendations ctx configured outcome).recommendations =
      if ctx.clickedItems.length = 0 ∧ ctx.cartItems.length = 0 ∧
          ctx.mostOrderedItems.length = 0 then
        (ctx.appData.products.take 5).map fun p =>
          ⟨(p.product_id : ℚ),
            .jstr ("Popular " ++ jsToLower p.category ++ " item - great for new customers!")⟩
      else getAIRecommendations ctx configured outcome := by
  unfold getRecommendations
  split <;> rfl

/-- The provenance tag of the arbitration result, path by path. -/
lemma getRecommendations_type (ctx : AppContext) (configured : Bool)
    (outcome : AIOutcome) :
    (getRecommendations ctx configured outcome).type =
      if ctx.clickedItems.length = 0 ∧ ctx.cartItems.length = 0 ∧
          ctx.mostOrderedItems.length = 0 then ProvType.fallback
      else ProvType.aiPowered := by
  unfold getRecommendations
  split <;> rfl

/-- `getAIRecommendations` with no backend handle. -/
lemma getAI_unconfigured (ctx : AppContext) (outcome : AIOutcome) :
    getAIRecommendations ctx false outcome = getFallbackRecommendations ctx := by
  unfold getAIRecommendations
  simp

/-- `getAIRecommendations` when the backend call throws. -/
lemma getAI_failure (ctx : AppContext) :
    getAIRecommendations ctx true AIOutcome.failure =
      getFallbackRecommendations ctx := by
  unfold getAIRecommendations
  simp

/-- `getAIRecommendations` when the backend call resolves with text. -/
lemma getAI_success (ctx : AppContext) (t : String) :
    getAIRecommendations ctx true (AIOutcome.success t) =
      match aiValidate ctx.appData.products t with
      | some valid =>
        if 0 < valid.length then valid else getFallbackRecommendations ctx
      | none => getFallbackRecommendations ctx := by
  unfold getAIRecommendations
  simp

/-- Every fallback recommendation references a catalog product. -/
lemma mem_fallback_products {ctx : AppContext} {r : Recommendation}
    (h : r ∈ getFallbackRecommendations ctx) :
    ∃ p ∈ ctx.appData.products, (p.product_id : ℚ) = r.productId := by
  unfold getFallbackRecommendations at h
  split at h
  · obtain ⟨p, hp, rfl⟩ := List.mem_map.1 h
    exact ⟨p, List.mem_of_mem_filter (List.mem_of_mem_filter (List.mem_of_mem_take hp)), rfl⟩
  · obtain ⟨p, hp, rfl⟩ := List.mem_map.1 h
    exact ⟨p, List.mem_of_mem_filter (List.mem_of_mem_take hp), rfl⟩

/-- Every entry surviving validation references a catalog product. -/
lemma mem_keepEntry_products {products : List Product} {entries : List JVal}
    {r : Recommendation} (h : r ∈ entries.filterMap (keepEntry products)) :
    ∃ p ∈ products, (p.product_id : ℚ) = r.productId := by
  obtain ⟨e, -, he⟩ := List.mem_filterMap.1 h
  unfold keepEntry at he
  split at he
  case h_1 q heq =>
    split at he
    case isTrue hcond =>
      obtain ⟨-, hex⟩ := by simpa using hcond
      obtain ⟨p, hp, hid⟩ := hex
      cases he
      exact ⟨p, hp, hid⟩
    case isFalse => exact absurd he (by simp)
  all_goals exact absurd he (by simp)

/-- `aiValidate` only returns lists produced by `keepEntry` filtering. -/
lemma aiValidate_eq_some {products : List Product} {text : String}
    {valid : List Recommendation}
    (h : aiValidate products text = some valid) :
    ∃ entries, parseJson (cleanText text) = some (.jarr entries) ∧
      hasNullEntry entries = false ∧
      valid = entries.filterMap (keepEntry products) := by
  unfold aiValidate at h
  split at h
  case h_1 entries heq =>
    unfold validateAIEntries at h
    split at h
    · cases h
    · cases h
      exact ⟨entries, heq, by simp_all, rfl⟩
  case h_2 => cases h

/-- Every recommendation produced on the AI path references a catalog
product. -/
lemma mem_ai_products {ctx : AppContext} {configured : Bool}
    {outcome : AIOutcome} {r : Recommendation}
    (h : r ∈ getAIRecommendations ctx configured outcome) :
    ∃ p ∈ ctx.appData.products, (p.product_id : ℚ) = r.productId := by
  cases configured with
  | false =>
    rw [getAI_unconfigured] at h
    exact mem_fallback_products h
  | true =>
    cases outcome with
    | failure =>
      rw [getAI_failure] at h
      exact mem_fallback_products h
    | success t =>
      rw [getAI_success] at h
      rcases hv : aiValidate ctx.appData.products t with - | valid
      · rw [hv] at h
        exact mem_fallback_products h
      · rw [hv] at h
        have h' : r ∈ if 0 < valid.length then valid
            else getFallbackRecommendations ctx := h
        split at h'
        · obtain ⟨entries, -, -, rfl⟩ := aiValidate_eq_some hv
          exact mem_keepEntry_products h'
        · exact mem_fallback_products h'

/-! ## Claim C1 (provenance tag) -/

/-- **C1, counterexample.**  The claim says that on the backend-unconfigured
path the provenance tag is `fallback`; but for a context with a non-empty
clicked stream and no configured backend the code tags the (substituted
fallback) result `ai-powered`. -/
theorem c1_counterexample :
    (getRecommendations ctxClicked false AIOutcome.failure).type ≠
      ProvType.fallback := by decide

/-- **C1, amended.**  For every request whose context has at least one
non-empty interaction stream the provenance tag is `ai-powered` — no matter
whether validation produced entries or the backend was unconfigured, erred,
or returned garbage and the rule-based fallback list was substituted; the
tag is `fallback` exactly on the cold-start (all streams empty) path. -/
theorem c1_provenance_tag (ctx : AppContext) (configured : Bool)
    (outcome : AIOutcome) :
    ((ctx.clickedItems ≠ [] ∨ ctx.cartItems ≠ [] ∨ ctx.mostOrderedItems ≠ []) →
      (getRecommendations ctx configured outcome).type = ProvType.aiPowered) ∧
    (ctx.clickedItems = [] → ctx.cartItems = [] → ctx.mostOrderedItems = [] →
      (getRecommendations ctx configured outcome).type = ProvType.fallback) := by
  rw [getRecommendations_type]
  constructor
  · intro h
    rw [if_neg]
    rintro ⟨h1, h2, h3⟩
    rcases h with h | h | h
    · exact h (List.length_eq_zero.1 h1)
    · exact h (List.length_eq_zero.1 h2)
    · exact h (List.length_eq_zero.1 h3)
  · intro h1 h2 h3
    rw [if_pos ⟨by simp [h1], by simp [h2], by simp [h3]⟩]

/-- **C1, witness** for the amended theorem at a concrete input. -/
theorem c1_witness :
    ctxClicked.clickedItems ≠ [] ∧
      (getRecommendations ctxClicked false AIOutcome.failure).type =
        ProvType.aiPowered :=
  ⟨by decide,
    (c1_provenance_tag ctxClicked false AIOutcome.failure).1 (Or.inl (by decide))⟩

/-! ## Claim C2 (failures collapse to the fallback) -/

/-- The failure modes of the AI attempt named by the spec: the backend call
threw, or the response did not parse as a JSON array (including the caught
`TypeError` on a `null` element), or zero entries survived validation. -/
def aiPathFails (ctx : AppContext) : AIOutcome → Prop
  | .failure => True
  | .success t =>
    match aiValidate ctx.appData.products t with
    | some valid => valid = []
    | none => True

/-- **C2.**  For every context that reaches the AI attempt (at least one
non-empty interaction stream — on cold start no backend call happens), if
the call errs, or the response fails to parse as a JSON array, or zero
entries survive validation, the recommendation list of the result is
exactly the rule-based fallback on the same context.  (No exception crosses
the boundary: the embedded `getRecommendations` is a total function.) -/
theorem c2_failures_collapse (ctx : AppContext) (configured : Bool)
    (outcome : AIOutcome)
    (hreach : ctx.clickedItems ≠ [] ∨ ctx.cartItems ≠ [] ∨
      ctx.mostOrderedItems ≠ [])
    (hfail : aiPathFails ctx outcome) :
    (getRecommendations ctx configured outcome).recommendations =
      getFallbackRecommendations ctx := by
  rw [getRecommendations_recs, if_neg]
  · cases configured with
    | false => exact getAI_unconfigured ctx outcome
    | true =>
      cases outcome with
      | failure => exact getAI_failure ctx
      | success t =>
        rw [getAI_success]
        have h2 : (match aiValidate ctx.appData.products t with
            | some v => v = []
            | none => True) := hfail
        rcases hv : aiValidate ctx.appData.products t with - | valid
        · rfl
        · rw [hv] at h2
          have hnil : valid = [] := h2
          subst hnil
          rfl
  · rintro ⟨h1, h2, h3⟩
    rcases hreach with h | h | h
    · exact h (List.length_eq_zero.1 h1)
    · exact h (List.length_eq_zero.1 h2)
    · exact h (List.length_eq_zero.1 h3)

/-- **C2, witness**: concrete context with a clicked item, failing backend
call. -/
theorem c2_witness :
    (ctxClicked.clickedItems ≠ [] ∨ ctxClicked.cartItems ≠ [] ∨
      ctxClicked.mostOrderedItems ≠ []) ∧
    aiPathFails ctxClicked AIOutcome.failure ∧
    (getRecommendations ctxClicked true AIOutcome.failure).recommendations =
      getFallbackRecommendations ctxClicked :=
  ⟨Or.inl (by decide), trivial,
    c2_failures_collapse ctxClicked true AIOutcome.failure
      (Or.inl (by decide)) trivial⟩


/-! ## Claim C4 (every surfaced identifier exists in the catalog) -/

/-- **C4.**  On every path — cold start, validated AI response, rule-based
fallback — every recommendation in the result references a product of the
context's catalog snapshot. -/
theorem c4_ids_in_catalog (ctx : AppContext) (configured : Bool)
    (outcome : AIOutcome) (r : Recommendation)
    (hr : r ∈ (getRecommendations ctx configured outcome).recommendations) :
    ∃ p ∈ ctx.appData.products, (p.product_id : ℚ) = r.productId := by
  rw [getRecommendations_recs] at hr
  split at hr
  · obtain ⟨p, hp, rfl⟩ := List.mem_map.1 hr
    exact ⟨p, List.mem_of_mem_take hp, rfl⟩
  · exact mem_ai_products hr

/-- **C4, witness**: the first cold-start recommendation over the sample
catalog references product 1. -/
theorem c4_witness :
    (⟨(1 : ℚ), .jstr "Popular fruits item - great for new customers!"⟩ :
        Recommendation) ∈
      (getRecommendations ctxCold true AIOutcome.failure).recommendations ∧
    ∃ p ∈ ctxCold.appData.products, (p.product_id : ℚ) = (1 : ℚ) := by
  have hmem : (⟨(1 : ℚ), .jstr "Popular fruits item - great for new customers!"⟩ :
      Recommendation) ∈
      (getRecommendations ctxCold true AIOutcome.failure).recommendations := by
    have h : (getRecommendations ctxCold true AIOutcome.failure).recommendations =
        [⟨(1 : ℚ), .jstr "Popular fruits item - great for new customers!"⟩,
         ⟨2, .jstr "Popular fruits item - great for new customers!"⟩,
         ⟨3, .jstr "Popular vegetables item - great for new customers!"⟩,
         ⟨4, .jstr "Popular dairy item - great for new customers!"⟩,
         ⟨5, .jstr "Popular meat item - great for new customers!"⟩] := rfl
    rw [h]
    exact List.mem_cons_self _ _
  exact ⟨hmem, c4_ids_in_catalog ctxCold true AIOutcome.failure _ hmem⟩

/-! ## Claim C6 (cold start) -/

/-- **C6.**  With all three interaction streams empty, the arbitration
returns the first `min 5 catalogSize` catalog products in catalog order as
"popular item" recommendations with provenance `fallback`, each referencing
a catalog product, and the result does not depend on the backend handle or
outcome at all (the AI path is skipped: no prompt, no call). -/
theorem c6_cold_start (ctx : AppContext) (configured : Bool)
    (outcome : AIOutcome)
    (h1 : ctx.clickedItems = []) (h2 : ctx.cartItems = [])
    (h3 : ctx.mostOrderedItems = []) :
    (getRecommendations ctx configured outcome).type = ProvType.fallback ∧
    (getRecommendations ctx configured outcome).recommendations =
      (ctx.appData.products.take 5).map (fun p =>
        ⟨(p.product_id : ℚ),
          .jstr ("Popular " ++ jsToLower p.category ++ " item - great for new customers!")⟩) ∧
    (getRecommendations ctx configured outcome).recommendations.length =
      min 5 ctx.appData.products.length ∧
    (∀ r ∈ (getRecommendations ctx configured outcome).recommendations,
      ∃ p ∈ ctx.appData.products, (p.product_id : ℚ) = r.productId) ∧
    (∀ (configured' : Bool) (outcome' : AIOutcome),
      getRecommendations ctx configured' outcome' =
        getRecommendations ctx configured outcome) := by
  have hcond : ctx.clickedItems.length = 0 ∧ ctx.cartItems.length = 0 ∧
      ctx.mostOrderedItems.length = 0 := ⟨by simp [h1], by simp [h2], by simp [h3]⟩
  have key : ∀ (c : Bool) (o : AIOutcome), getRecommendations ctx c o =
      { recommendations := (ctx.appData.products.take 5).map (fun p =>
          ⟨(p.product_id : ℚ),
            .jstr ("Popular " ++ jsToLower p.category ++ " item - great for new customers!")⟩)
        context := ctx
        type := ProvType.fallback } := by
    intro c o
    unfold getRecommendations
    rw [if_pos hcond]
  refine ⟨by rw [key], by rw [key], ?_, ?_, ?_⟩
  · rw [key]
    simp [List.length_take]
  · intro r hr
    rw [key] at hr
    obtain ⟨p, hp, rfl⟩ := List.mem_map.1 hr
    exact ⟨p, List.mem_of_mem_take hp, rfl⟩
  · intro c' o'
    rw [key, key]

/-- **C6, witness** at the cold-start fixture. -/
theorem c6_witness :
    ctxCold.clickedItems = [] ∧ ctxCold.cartItems = [] ∧
      ctxCold.mostOrderedItems = [] ∧
    (getRecommendations ctxCold true (AIOutcome.success "ignored")).type =
      ProvType.fallback ∧
    (getRecommendations ctxCold true (AIOutcome.success "ignored")).recommendations.length =
      min 5 ctxCold.appData.products.length :=
  ⟨rfl, rfl, rfl,
    (c6_cold_start ctxCold true (AIOutcome.success "ignored") rfl rfl rfl).1,
    (c6_cold_start ctxCold true (AIOutcome.success "ignored") rfl rfl rfl).2.2.1⟩

/-! ## Claim C7 (shape of the rule-based fallback) -/

/-- Two successive filters are one filter on the conjunction. -/
lemma filter_then_filter (p q : α → Bool) (l : List α) :
    (l.filter p).filter q = l.filter fun a => p a && q a := by
  induction l with
  | nil => rfl
  | cons a l ih =>
    by_cases hp : p a <;> by_cases hq : q a <;>
      simp [List.filter_cons, hp, hq, ih]

/-- `List.contains` over a decidable-equality type decides membership. -/
lemma contains_eq_decide_mem {α : Type} [DecidableEq α] (l : List α) (x : α) :
    l.contains x = decide (x ∈ l) := by
  induction l with
  | nil => rfl
  | cons a l ih =>
    simp only [List.contains_cons, ih, List.mem_cons]
    by_cases h : x = a <;> simp [h]

/-- Negated `contains` decides non-membership. -/
lemma bang_contains_eq {α : Type} [DecidableEq α] (l : List α) (x : α) :
    (!l.contains x) = decide (x ∉ l) := by
  rw [contains_eq_decide_mem]
  simp

/-- The source's not-interacted filter, in membership form. -/
lemma fallback_filter_one (ps : List Product) (ids : List Int) :
    (ps.filter fun p => !ids.contains p.product_id) =
      ps.filter fun p => decide (p.product_id ∉ ids) :=
  List.filter_congr fun a _ => bang_contains_eq ids a.product_id

/-- The source's two successive filters, as one membership conjunction. -/
lemma fallback_filter_two (ps : List Product) (ids : List Int)
    (cats : List String) :
    ((ps.filter fun p => !ids.contains p.product_id).filter
        fun p => cats.contains p.category) =
      ps.filter fun p =>
        decide (p.product_id ∉ ids ∧ p.category ∈ cats) := by
  rw [filter_then_filter]
  apply List.filter_congr
  intro p _
  rw [bang_contains_eq, contains_eq_decide_mem]
  simp

/-- **C7.**  The rule-based fallback returns, when the preferred-category
list is non-empty, the first 5 catalog products (catalog order) that were
never interacted with and whose category is preferred, with the
interest-based reason; with no preferred categories, the first 5
non-interacted products with the "popular item" reason. -/
theorem c7_fallback_shape (ctx : AppContext) :
    getFallbackRecommendations ctx =
      if ctx.categories ≠ [] then
        ((ctx.appData.products.filter fun p =>
            decide (p.product_id ∉ interactedIds ctx ∧
              p.category ∈ ctx.categories)).take 5).map
          (fun p => ⟨(p.product_id : ℚ),
            .jstr ("Recommended based on your interest in " ++ p.category)⟩)
      else
        ((ctx.appData.products.filter fun p =>
            decide (p.product_id ∉ interactedIds ctx)).take 5).map
          (fun p => ⟨(p.product_id : ℚ),
            .jstr ("Popular " ++ jsToLower p.category ++ " item")⟩) := by
  simp only [getFallbackRecommendations]
  rcases hc : ctx.categories with _ | ⟨c, cs⟩
  · rw [if_neg (by simp), if_neg (by simp)]
    rw [fallback_filter_one]
  · rw [if_pos (by simp), if_pos (by simp)]
    rw [fallback_filter_two]

/-! ## Claim C9 (side effects of a recommendation request) -/

/-- **C9, counterexample.**  The claim says a request leaves every stored
blob unchanged; but with an empty stored catalog the context assembly
writes the sample catalog into the `appData` blob. -/
theorem c9_counterexample :
    (getRecommendationsFromStore "/" true AIOutcome.failure
        emptyCatalogStore).2 ≠ emptyCatalogStore := by decide

/-- **C9, amended.**  A recommendation request (with its context assembly)
never touches the preferences, history or interaction blobs; the only
write is that, when the stored catalog is empty, the `appData` blob is
seeded with the 5 sample products.  With a non-empty stored catalog the
whole store is unchanged. -/
theorem c9_store_effects (page : String) (configured : Bool)
    (outcome : AIOutcome) (st : LocalStore) :
    ((getRecommendationsFromStore page configured outcome st).2.userPreferences =
        st.userPreferences ∧
      (getRecommendationsFromStore page configured outcome st).2.userHistory =
        st.userHistory ∧
      (getRecommendationsFromStore page configured outcome st).2.clickedItems =
        st.clickedItems ∧
      (getRecommendationsFromStore page configured outcome st).2.cartItems =
        st.cartItems ∧
      (getRecommendationsFromStore page configured outcome st).2.mostOrderedItems =
        st.mostOrderedItems) ∧
    (st.appDataProducts ≠ [] →
      (getRecommendationsFromStore page configured outcome st).2 = st) ∧
    (st.appDataProducts = [] →
      (getRecommendationsFromStore page configured outcome st).2.appDataProducts =
        sampleProducts) := by
  unfold getRecommendationsFromStore getAppContextWithFallbacks
  rcases hp : st.appDataProducts with - | ⟨p, ps⟩
  · simp [hp]
  · simp [hp]

/-- **C9, witness**: with a seeded catalog in the store, the request leaves
the store untouched. -/
theorem c9_witness :
    seededStore.appDataProducts ≠ [] ∧
    (getRecommendationsFromStore "/" true AIOutcome.failure seededStore).2 =
      seededStore :=
  ⟨by decide,
    (c9_store_effects "/" true AIOutcome.failure seededStore).2.1 (by decide)⟩

/-! ## Claim C10 (no deduplication of surviving identifiers) -/

/-- An AI response carrying the same valid catalog identifier twice. -/
def c10Text : String :=
  "[\x7b\"productId\":2,\"reason\":\"a\"\x7d,\x7b\"productId\":2,\"reason\":\"b\"\x7d]"

/-- **C10.**  Validation performs no deduplication: a response with two
entries for catalog product 2 yields an `ai-powered` result whose list
carries identifier 2 twice. -/
theorem c10_no_dedup :
    ((getRecommendations ctxClicked true (AIOutcome.success c10Text)).recommendations.map
        fun r => r.productId) = [2, 2] ∧
    (getRecommendations ctxClicked true (AIOutcome.success c10Text)).type =
      ProvType.aiPowered ∧
    ¬ ((getRecommendations ctxClicked true
        (AIOutcome.success c10Text)).recommendations.map
          fun r => r.productId).Nodup := by
  refine ⟨by decide, by decide, by decide⟩


/-! ## Claim C8 (interaction recorder retention) -/

/-- `takeLast` never exceeds its bound. -/
lemma takeLast_length_le (n : Nat) (l : List α) : (takeLast n l).length ≤ n := by
  simp only [takeLast, List.length_drop]
  omega

/-- Trimming, appending and trimming again is the same as trimming once at
the end: the repeated per-call `slice(-50)` collapses. -/
lemma takeLast_append_takeLast (n : Nat) (l m : List α) :
    takeLast n (takeLast n l ++ m) = takeLast n (l ++ m) := by
  unfold takeLast
  rcases le_or_lt l.length n with h | h
  · rw [Nat.sub_eq_zero_of_le h, List.drop_zero]
  · have hlen : (l.drop (l.length - n)).length = n := by
      simp only [List.length_drop]
      omega
    rw [List.length_append, hlen]
    have h2 : l.drop (l.length - n) ++ m = (l ++ m).drop (l.length - n) :=
      (List.drop_append_of_le_length (by omega)).symm
    rw [h2, List.drop_drop]
    congr 1
    rw [List.length_append]
    omega

/-- Unfolding one tracking step. -/
lemma runTrack_cons (st : LocalStore) (e : TrackEvent) (evs : List TrackEvent) :
    runTrack st (e :: evs) =
      runTrack (trackUserInteraction st e.action e.item e.timestamp) evs := rfl

/-- `(a == b)` on action kinds decides propositional equality. -/
lemma actionKind_beq (a b : ActionKind) : (a == b) = decide (a = b) := rfl

/-- The cart collection is append-only under any event sequence. -/
lemma runTrack_cartItems (st : LocalStore) (evs : List TrackEvent) :
    (runTrack st evs).cartItems = st.cartItems ++ eventsOf .addToCart evs := by
  induction evs generalizing st with
  | nil => simp [runTrack, eventsOf]
  | cons e evs ih =>
    rw [runTrack_cons, ih]
    rcases e with ⟨a, item, ts⟩
    cases a <;>
      simp [trackUserInteraction, eventsOf, List.filter_cons, actionKind_beq,
        TrackEvent.interaction, List.append_assoc]

/-- The order collection is append-only under any event sequence. -/
lemma runTrack_mostOrderedItems (st : LocalStore) (evs : List TrackEvent) :
    (runTrack st evs).mostOrderedItems =
      st.mostOrderedItems ++ eventsOf .order evs := by
  induction evs generalizing st with
  | nil => simp [runTrack, eventsOf]
  | cons e evs ih =>
    rw [runTrack_cons, ih]
    rcases e with ⟨a, item, ts⟩
    cases a <;>
      simp [trackUserInteraction, eventsOf, List.filter_cons, actionKind_beq,
        TrackEvent.interaction, List.append_assoc]

/-- The clicked collection after any event sequence: unchanged when the
sequence has no click, and otherwise the last 50 of the initial collection
followed by the clicks in order. -/
lemma runTrack_clickedItems (st : LocalStore) (evs : List TrackEvent) :
    (runTrack st evs).clickedItems =
      if eventsOf .click evs = [] then st.clickedItems
      else takeLast 50 (st.clickedItems ++ eventsOf .click evs) := by
  induction evs generalizing st with
  | nil => simp [runTrack, eventsOf]
  | cons e evs ih =>
    rw [runTrack_cons, ih]
    rcases e with ⟨a, item, ts⟩
    cases a with
    | click =>
      have hev : eventsOf .click (⟨.click, item, ts⟩ :: evs) =
          TrackEvent.interaction ⟨.click, item, ts⟩ :: eventsOf .click evs := by
        simp [eventsOf, List.filter_cons, actionKind_beq]
      rw [hev]
      have hcl : (trackUserInteraction st .click item ts).clickedItems =
          takeLast 50 (st.clickedItems ++ [TrackEvent.interaction ⟨.click, item, ts⟩]) := rfl
      by_cases h : eventsOf .click evs = []
      · rw [if_pos h, if_neg (by simp), h, hcl]
      · rw [if_neg h, if_neg (by simp), hcl, takeLast_append_takeLast]
        congr 1
        simp [List.append_assoc]
    | addToCart =>
      have hev : eventsOf .click (⟨.addToCart, item, ts⟩ :: evs) =
          eventsOf .click evs := by
        simp [eventsOf, List.filter_cons, actionKind_beq]
      rw [hev]
      have hcl : (trackUserInteraction st .addToCart item ts).clickedItems =
          st.clickedItems := rfl
      rw [hcl]
    | order =>
      have hev : eventsOf .click (⟨.order, item, ts⟩ :: evs) =
          eventsOf .click evs := by
        simp [eventsOf, List.filter_cons, actionKind_beq]
      rw [hev]
      have hcl : (trackUserInteraction st .order item ts).clickedItems =
          st.clickedItems := rfl
      rw [hcl]

/-- **C8.**  For every sequence of tracking calls ending in a click, the
stored clicked collection holds at most 50 records — exactly the last 50 of
the initial collection followed by the recorded clicks, oldest evicted
first — while the cart and order collections are exactly the initial
collections with every matching event appended (append-only, unbounded). -/
theorem c8_retention (st : LocalStore) (evs : List TrackEvent) (e : TrackEvent)
    (h : e.action = .click) :
    (runTrack st (evs ++ [e])).clickedItems.length ≤ 50 ∧
    (runTrack st (evs ++ [e])).clickedItems =
      takeLast 50 (st.clickedItems ++ eventsOf .click (evs ++ [e])) ∧
    (runTrack st (evs ++ [e])).cartItems =
      st.cartItems ++ eventsOf .addToCart (evs ++ [e]) ∧
    (runTrack st (evs ++ [e])).mostOrderedItems =
      st.mostOrderedItems ++ eventsOf .order (evs ++ [e]) := by
  have hne : eventsOf .click (evs ++ [e]) ≠ [] := by
    simp [eventsOf, List.filter_append, List.filter_cons, actionKind_beq, h]
  refine ⟨?_, ?_, runTrack_cartItems st _, runTrack_mostOrderedItems st _⟩
  · rw [runTrack_clickedItems, if_neg hne]
    exact takeLast_length_le _ _
  · rw [runTrack_clickedItems, if_neg hne]

/-- A click tracking event used by the C8 witness. -/
def clickEvent : TrackEvent := ⟨.click, ⟨1, "Fresh Apples", "Fruits"⟩, "2024-01-01"⟩

/-- **C8, witness** at a concrete store and a single click. -/
theorem c8_witness :
    clickEvent.action = ActionKind.click ∧
    (runTrack emptyCatalogStore ([] ++ [clickEvent])).clickedItems.length ≤ 50 ∧
    (runTrack emptyCatalogStore ([] ++ [clickEvent])).clickedItems =
      takeLast 50 (emptyCatalogStore.clickedItems ++
        eventsOf .click ([] ++ [clickEvent])) ∧
    (runTrack emptyCatalogStore ([] ++ [clickEvent])).cartItems =
      emptyCatalogStore.cartItems ++ eventsOf .addToCart ([] ++ [clickEvent]) :=
  ⟨rfl, (c8_retention emptyCatalogStore [] clickEvent rfl).1,
    (c8_retention emptyCatalogStore [] clickEvent rfl).2.1,
    (c8_retention emptyCatalogStore [] clickEvent rfl).2.2.1⟩


/-! ## Claim C5 (the validation pipeline, stated from the spec's words) -/

/-- The claim's coercion, stated from the spec's words: a number is taken
as is, a string-typed identifier is coerced with `parseInt`, anything else
has no numeric identifier. -/
def coerceIdSpec : JVal → Option ℚ
  | .jnum q => some q
  | .jstr s =>
    match parseIntJS s with
    | some n => some ((n : Int) : ℚ)
    | none => none
  | _ => none

/-- The claim's keep-condition, stated from the spec's words: an entry is
kept if and only if its coerced identifier is a positive number that
matches a catalog product. -/
def specKeep (products : List Product) (e : JVal) : Option Recommendation :=
  match coerceIdSpec (getField e "productId") with
  | some q =>
    if 0 < q ∧ ∃ p ∈ products, (p.product_id : ℚ) = q then
      some ⟨q, getField e "reason"⟩
    else none
  | none => none

/-- The claim's validation pipeline, stated from the spec's words: strip
code-fence markup and trim, parse as a JSON array (a non-array value, a
parse error, or the caught access-on-`null` error all count as failure),
and keep exactly the entries whose coerced identifier is a positive number
matching a catalog product. -/
def specValidate (products : List Product) (text : String) :
    Option (List Recommendation) :=
  match parseJson (cleanText text) with
  | some (.jarr entries) =>
    if hasNullEntry entries then none
    else some (entries.filterMap (specKeep products))
  | _ => none

/-- The Boolean keep-test of the source and the propositional keep-test of
the spec agree. -/
lemma keep_cond_eq (products : List Product) (q : ℚ) (r : JVal) :
    (if (decide (0 < q) && products.any fun p => decide ((p.product_id : ℚ) = q)) = true
      then some (⟨q, r⟩ : Recommendation) else none) =
    (if 0 < q ∧ ∃ p ∈ products, (p.product_id : ℚ) = q
      then some ⟨q, r⟩ else none) := by
  rcases Decidable.em (0 < q ∧ ∃ p ∈ products, (p.product_id : ℚ) = q) with h | h
  · rw [if_pos (by simpa [List.any_eq_true] using h), if_pos h]
  · rw [if_neg (by simpa [List.any_eq_true] using h), if_neg h]

/-- The source's per-entry validation coincides with the spec's wording. -/
lemma keepEntry_eq_specKeep (products : List Product) (e : JVal) :
    keepEntry products e = specKeep products e := by
  rcases hf : getField e "productId" with _ | b | q | s | els | fs | _ | _
  case jnum =>
    simp only [keepEntry, specKeep, coercePid, coerceIdSpec, hf]
    exact keep_cond_eq products q (getField e "reason")
  case jstr =>
    simp only [keepEntry, specKeep, coercePid, coerceIdSpec, hf]
    rcases hp : parseIntJS s with _ | n
    · simp
    · simp only
      exact keep_cond_eq products ((n : Int) : ℚ) (getField e "reason")
  all_goals simp [keepEntry, specKeep, coercePid, coerceIdSpec, hf]

/-- The whole validation step coincides with the spec's wording. -/
lemma aiValidate_eq_specValidate (products : List Product) (text : String) :
    aiValidate products text = specValidate products text := by
  unfold aiValidate specValidate validateAIEntries
  rcases hp : parseJson (cleanText text) with _ | v
  · rfl
  · cases v <;> try rfl
    case jarr entries =>
      show (if hasNullEntry entries then none
            else some (entries.filterMap (keepEntry products))) =
          (if hasNullEntry entries then none
            else some (entries.filterMap (specKeep products)))
      by_cases hn : hasNullEntry entries
      · rw [if_pos hn, if_pos hn]
      · rw [if_neg hn, if_neg hn]
        have heq : keepEntry products = specKeep products :=
          funext (keepEntry_eq_specKeep products)
        rw [heq]

/-- The response text of the spec's validation scenario. -/
def c5Text : String :=
  "[\x7b\"productId\":\"2\",\"reason\":\"x\"\x7d, \x7b\"productId\":999,\"reason\":\"y\"\x7d]"

/-- **C5.**  AI-response validation strips code-fence markup, parses a JSON
array, coerces string-typed identifiers with `parseInt`, and keeps an entry
exactly when its coerced identifier is a positive number matching a catalog
product; on the spec's concrete scenario (ids "2" and 999 against a catalog
holding 2 but not 999) exactly one entry with numeric identifier 2
survives. -/
theorem c5_validation (products : List Product) (text : String) :
    aiValidate products text = specValidate products text ∧
    (aiValidate sampleProducts c5Text).map (fun l => l.map fun r => r.productId) =
      some [2] ∧
    (aiValidate sampleProducts c5Text).map (fun l => l.length) = some 1 :=
  ⟨aiValidate_eq_specValidate products text, by decide, by decide⟩


/-! ## Claim C3 (history scorer) -/

/-- First-occurrence deduplication: the order in which distinct categories
first appear in the concatenated stream. -/
def dedupFirst : List String → List String
  | [] => []
  | c :: cs => c :: (dedupFirst cs).filter fun d => d != c

/-- Stable insertion for the claim-side ranking (descending by count; an
element moves past exactly the strictly smaller counts). -/
def insertRanked (cnt : String → Nat) (c : String) : List String → List String
  | [] => [c]
  | d :: ds => if cnt d ≤ cnt c then c :: d :: ds else d :: insertRanked cnt c ds

/-- Claim-side stable sort by descending count. -/
def rankByCountDesc (cnt : String → Nat) : List String → List String
  | [] => []
  | c :: cs => insertRanked cnt c (rankByCountDesc cnt cs)

/-- Claim-side insertion ascending by numeric key value. -/
def insertIdxAscStr (x : String) : List String → List String
  | [] => [x]
  | y :: ys =>
    if digitsToNat x.data < digitsToNat y.data then x :: y :: ys
    else y :: insertIdxAscStr x ys

/-- Claim-side sort ascending by numeric key value. -/
def sortIdxAscStr : List String → List String
  | [] => []
  | x :: xs => insertIdxAscStr x (sortIdxAscStr xs)

/-- Claim-side enumeration order of the count table's keys: canonical
array-index labels first, ascending numerically, then the remaining labels
in the order given. -/
def entriesOrderStr (l : List String) : List String :=
  sortIdxAscStr (l.filter isArrayIndexKey) ++ l.filter fun c => !isArrayIndexKey c

/-- The claim's algorithm, verbatim: concatenate the streams, skip empty
categories, count occurrences, sort descending by count with ties broken
stably by first-occurrence order, take the top 6. -/
def claimPreferredCategories
    (clicked cart ordered : List UserInteraction) : List String :=
  let cats := ((clicked ++ cart ++ ordered).map fun i => i.category).filter
    fun c => c != ""
  (rankByCountDesc (fun c => cats.count c) (dedupFirst cats)).take 6

/-- The amended algorithm: as the claim, except that the tie-break order is
the `Object.entries` enumeration order of the count table — categories
whose labels are canonical array-index strings come first, in ascending
numeric order, and only the remaining categories tie-break by
first-occurrence order. -/
def amendedPreferredCategories
    (clicked cart ordered : List UserInteraction) : List String :=
  let cats := ((clicked ++ cart ++ ordered).map fun i => i.category).filter
    fun c => c != ""
  (rankByCountDesc (fun c => cats.count c)
    (entriesOrderStr (dedupFirst cats))).take 6

/-- Membership is preserved by first-occurrence deduplication. -/
lemma mem_dedupFirst {a : String} : ∀ {l : List String},
    a ∈ dedupFirst l ↔ a ∈ l := by
  intro l
  induction l with
  | nil => simp [dedupFirst]
  | cons c cs ih =>
    simp only [dedupFirst, List.mem_cons, List.mem_filter, ih, bne_iff_ne]
    by_cases h : a = c <;> simp [h]

/-- First-occurrence deduplication yields no duplicates. -/
lemma nodup_dedupFirst : ∀ (l : List String), (dedupFirst l).Nodup
  | [] => List.nodup_nil
  | c :: cs => by
    simp only [dedupFirst, List.nodup_cons]
    refine ⟨?_, (nodup_dedupFirst cs).filter _⟩
    intro hmem
    have h2 := (List.mem_filter.1 hmem).2
    simp at h2

/-- Deduplication commutes with filtering. -/
lemma dedupFirst_filter (p : String → Bool) : ∀ (l : List String),
    dedupFirst (l.filter p) = (dedupFirst l).filter p
  | [] => rfl
  | c :: cs => by
    by_cases hp : p c
    · rw [List.filter_cons_of_pos hp]
      simp only [dedupFirst, dedupFirst_filter p cs,
        List.filter_cons_of_pos hp]
      congr 1
      rw [filter_then_filter, filter_then_filter]
      exact List.filter_congr fun d _ => Bool.and_comm _ _
    · rw [List.filter_cons_of_neg hp]
      simp only [dedupFirst, dedupFirst_filter p cs]
      rw [List.filter_cons_of_neg hp]
      rw [filter_then_filter]
      apply List.filter_congr
      intro d _
      by_cases hd : d = c
      · subst hd
        simp [hp]
      · simp [hd]

/-- Claim-side ranked insertion permutes. -/
lemma insertRanked_perm (cnt : String → Nat) (c : String) :
    ∀ (l : List String), List.Perm (insertRanked cnt c l) (c :: l)
  | [] => List.Perm.refl _
  | d :: ds => by
    unfold insertRanked
    split
    · exact List.Perm.refl _
    · exact ((insertRanked_perm cnt c ds).cons d).trans (List.Perm.swap _ _ _)

/-- Claim-side ranking permutes. -/
lemma rankByCountDesc_perm (cnt : String → Nat) :
    ∀ (l : List String), List.Perm (rankByCountDesc cnt l) l
  | [] => List.Perm.refl _
  | c :: cs =>
    (insertRanked_perm cnt c _).trans ((rankByCountDesc_perm cnt cs).cons c)

/-- Numeric-key insertion permutes. -/
lemma insertIdxAscStr_perm (x : String) :
    ∀ (l : List String), List.Perm (insertIdxAscStr x l) (x :: l)
  | [] => List.Perm.refl _
  | y :: ys => by
    unfold insertIdxAscStr
    split
    · exact List.Perm.refl _
    · exact ((insertIdxAscStr_perm x ys).cons y).trans (List.Perm.swap _ _ _)

/-- Numeric-key sort permutes. -/
lemma sortIdxAscStr_perm : ∀ (l : List String), List.Perm (sortIdxAscStr l) l
  | [] => List.Perm.refl _
  | x :: xs => (insertIdxAscStr_perm x _).trans ((sortIdxAscStr_perm xs).cons x)

/-- The enumeration order is a permutation of the key list. -/
lemma entriesOrderStr_perm (l : List String) : List.Perm (entriesOrderStr l) l := by
  unfold entriesOrderStr
  exact ((sortIdxAscStr_perm _).append_right _).trans (List.filter_append_perm _ _)

/-- Pointwise-equal maps agree. -/
lemma map_congr_mine {f g : α → β} : ∀ {l : List α},
    (∀ a ∈ l, f a = g a) → l.map f = l.map g := by
  intro l
  induction l with
  | nil => intro _; rfl
  | cons a l ih =>
    intro h
    simp only [List.map_cons]
    rw [h a (List.mem_cons_self a l), ih fun b hb => h b (List.mem_cons_of_mem a hb)]

/-- A map that fixes every element of the list is the identity. -/
lemma map_eq_self {f : α → α} : ∀ {l : List α},
    (∀ a ∈ l, f a = a) → l.map f = l := by
  intro l
  induction l with
  | nil => intro _; rfl
  | cons a l ih =>
    intro h
    simp only [List.map_cons]
    rw [h a (List.mem_cons_self a l), ih fun b hb => h b (List.mem_cons_of_mem a hb)]

/-- The source's pairwise insertion tracks the claim-side insertion through
the count-tagging map. -/
lemma insertByCount_map (f : String → Nat) (c : String) : ∀ (l : List String),
    insertByCount (c, f c) (l.map fun d => (d, f d)) =
      (insertRanked f c l).map fun d => (d, f d)
  | [] => rfl
  | d :: ds => by
    simp only [List.map_cons, insertByCount, insertRanked]
    by_cases h : f d ≤ f c
    · rw [if_pos h, if_pos h]
      rfl
    · rw [if_neg h, if_neg h]
      rw [List.map_cons, insertByCount_map f c ds]

/-- The source's pairwise sort tracks the claim-side ranking. -/
lemma sortByCountDesc_map (f : String → Nat) : ∀ (l : List String),
    sortByCountDesc (l.map fun d => (d, f d)) =
      (rankByCountDesc f l).map fun d => (d, f d)
  | [] => rfl
  | c :: cs => by
    simp only [List.map_cons, sortByCountDesc, rankByCountDesc]
    rw [sortByCountDesc_map f cs, insertByCount_map]

/-- Pairwise numeric-key insertion tracks the claim-side one. -/
lemma insertIdxAsc_map (f : String → Nat) (c : String) : ∀ (l : List String),
    insertIdxAsc (c, f c) (l.map fun d => (d, f d)) =
      (insertIdxAscStr c l).map fun d => (d, f d)
  | [] => rfl
  | d :: ds => by
    simp only [List.map_cons, insertIdxAsc, insertIdxAscStr]
    by_cases h : digitsToNat c.data < digitsToNat d.data
    · rw [if_pos h, if_pos h]
      rfl
    · rw [if_neg h, if_neg h]
      rw [List.map_cons, insertIdxAsc_map f c ds]

/-- Pairwise numeric-key sort tracks the claim-side one. -/
lemma sortIdxAsc_map (f : String → Nat) : ∀ (l : List String),
    sortIdxAsc (l.map fun d => (d, f d)) =
      (sortIdxAscStr l).map fun d => (d, f d)
  | [] => rfl
  | c :: cs => by
    simp only [List.map_cons, sortIdxAsc, sortIdxAscStr]
    rw [sortIdxAsc_map f cs, insertIdxAsc_map]

/-- Filtering array-index keys commutes with count tagging. -/
lemma filter_idx_map (f : String → Nat) : ∀ (l : List String),
    ((l.map fun d => (d, f d)).filter fun kv => isArrayIndexKey kv.1) =
      (l.filter isArrayIndexKey).map fun d => (d, f d)
  | [] => rfl
  | c :: cs => by
    simp only [List.map_cons, List.filter_cons]
    by_cases h : isArrayIndexKey c <;> simp [h, filter_idx_map f cs]

/-- Filtering the remaining keys commutes with count tagging. -/
lemma filter_nidx_map (f : String → Nat) : ∀ (l : List String),
    ((l.map fun d => (d, f d)).filter fun kv => !isArrayIndexKey kv.1) =
      (l.filter fun c => !isArrayIndexKey c).map fun d => (d, f d)
  | [] => rfl
  | c :: cs => by
    simp only [List.map_cons, List.filter_cons]
    by_cases h : isArrayIndexKey c <;> simp [h, filter_nidx_map f cs]

/-- `Object.entries` enumeration commutes with count tagging. -/
lemma entriesOrder_map (f : String → Nat) (l : List String) :
    entriesOrder (l.map fun d => (d, f d)) =
      (entriesOrderStr l).map fun d => (d, f d) := by
  unfold entriesOrder entriesOrderStr
  rw [filter_idx_map, filter_nidx_map, sortIdxAsc_map, List.map_append]


/-- Count across a cons, split on the head. -/
lemma count_cons_eq (d c : String) (cs : List String) :
    (c :: cs).count d = cs.count d + (if d = c then 1 else 0) := by
  by_cases h : d = c <;> simp [h, List.count_cons]

/-- `bump` on an absent key appends a fresh entry of count 1. -/
lemma bump_of_not_mem {c : String} : ∀ {acc : List (String × Nat)},
    c ∉ acc.map Prod.fst → bump acc c = acc ++ [(c, 1)] := by
  intro acc
  induction acc with
  | nil => intro _; rfl
  | cons kv rest ih =>
    intro h
    simp only [List.map_cons, List.mem_cons] at h
    push_neg at h
    have h1 : kv.1 ≠ c := fun hh => h.1 hh.symm
    simp [bump, h1, ih h.2]

/-- `bump` on a present key (keys unique) increments it in place. -/
lemma bump_of_mem {c : String} : ∀ {acc : List (String × Nat)},
    (acc.map Prod.fst).Nodup → c ∈ acc.map Prod.fst →
    bump acc c = acc.map fun kv => if kv.1 = c then (kv.1, kv.2 + 1) else kv := by
  intro acc
  induction acc with
  | nil => intro _ h; simp at h
  | cons kv rest ih =>
    intro hnd h
    simp only [List.map_cons, List.nodup_cons] at hnd
    by_cases hk : kv.1 = c
    · simp only [bump, if_pos hk, List.map_cons, if_pos hk]
      congr 1
      refine (map_eq_self ?_).symm
      intro kv' hm
      rw [if_neg]
      intro hc
      apply hnd.1
      rw [hk, ← hc]
      exact List.mem_map_of_mem Prod.fst hm
    · have hc : c ∈ rest.map Prod.fst := by
        rcases List.mem_cons.1 h with h' | h'
        · exact absurd h'.symm hk
        · exact h'
      simp only [bump, if_neg hk, List.map_cons, if_neg hk]
      congr 1
      exact ih hnd.2 hc

/-- The count table built by the `reduce` step, characterised: existing
keys accumulate the remaining counts, and the new keys follow in
first-occurrence order carrying their total counts. -/
lemma foldl_bump_eq : ∀ (cats : List String) (acc : List (String × Nat)),
    (acc.map Prod.fst).Nodup →
    cats.foldl bump acc =
      acc.map (fun kv => (kv.1, kv.2 + cats.count kv.1)) ++
      (dedupFirst (cats.filter fun c => decide (c ∉ acc.map Prod.fst))).map
        (fun c => (c, cats.count c)) := by
  intro cats
  induction cats with
  | nil =>
    intro acc _
    simp [dedupFirst]
  | cons c cs ih =>
    intro acc hnd
    rw [List.foldl_cons]
    by_cases hmem : c ∈ acc.map Prod.fst
    · rw [bump_of_mem hnd hmem]
      have hkeys : ((acc.map fun kv =>
          if kv.1 = c then (kv.1, kv.2 + 1) else kv).map Prod.fst) =
          acc.map Prod.fst := by
        rw [List.map_map]
        apply map_congr_mine
        intro kv _
        by_cases h : kv.1 = c <;> simp [Function.comp, h]
      rw [ih _ (by rw [hkeys]; exact hnd)]
      have hA1 : ((acc.map fun kv => if kv.1 = c then (kv.1, kv.2 + 1) else kv).map
            fun kv => (kv.1, kv.2 + cs.count kv.1)) =
          acc.map fun kv => (kv.1, kv.2 + (c :: cs).count kv.1) := by
        rw [List.map_map]
        apply map_congr_mine
        intro kv _
        by_cases h : kv.1 = c <;>
          simp [Function.comp, h, count_cons_eq, Prod.ext_iff]
        omega
      have hA3 : (c :: cs).filter (fun d => decide (d ∉ acc.map Prod.fst)) =
          cs.filter fun d => decide (d ∉ acc.map Prod.fst) := by
        rw [List.filter_cons_of_neg]
        simpa using hmem
      have hA4 : ((dedupFirst (cs.filter fun d =>
            decide (d ∉ acc.map Prod.fst))).map fun d => (d, cs.count d)) =
          (dedupFirst (cs.filter fun d => decide (d ∉ acc.map Prod.fst))).map
            fun d => (d, (c :: cs).count d) := by
        apply map_congr_mine
        intro d hd
        have hd2 : d ∈ cs.filter fun d => decide (d ∉ acc.map Prod.fst) :=
          mem_dedupFirst.1 hd
        have hd3 : d ∉ acc.map Prod.fst := by
          simpa using (List.mem_filter.1 hd2).2
        have hdc : d ≠ c := fun hh => hd3 (hh ▸ hmem)
        rw [count_cons_eq, if_neg hdc]
        simp
      rw [hA1, hA3, hkeys, ← hA4]
    · rw [bump_of_not_mem hmem]
      have hkeys2 : ((acc ++ [(c, 1)]).map Prod.fst) = acc.map Prod.fst ++ [c] := by
        simp
      have hnd2 : (((acc ++ [(c, 1)]).map Prod.fst)).Nodup := by
        rw [hkeys2]
        simp [List.nodup_append, hnd, hmem]
      rw [ih _ hnd2]
      have hB1 : ((acc ++ [(c, 1)]).map fun kv : String × Nat =>
            (kv.1, kv.2 + cs.count kv.1)) =
          (acc.map fun kv : String × Nat => (kv.1, kv.2 + cs.count kv.1)) ++
            [(c, 1 + cs.count c)] := by
        simp
      have hB1' : (acc.map fun kv : String × Nat => (kv.1, kv.2 + cs.count kv.1)) =
          acc.map fun kv => (kv.1, kv.2 + (c :: cs).count kv.1) := by
        apply map_congr_mine
        intro kv hkv
        have hne : kv.1 ≠ c := by
          intro hh
          exact hmem (hh ▸ List.mem_map_of_mem Prod.fst hkv)
        rw [count_cons_eq, if_neg hne]
        simp
      have hB2 : (cs.filter fun d => decide (d ∉ (acc ++ [(c, 1)]).map Prod.fst)) =
          (cs.filter fun d => decide (d ∉ acc.map Prod.fst)).filter
            fun d => d != c := by
        rw [filter_then_filter]
        apply List.filter_congr
        intro d _
        rw [hkeys2]
        by_cases h1 : d ∈ acc.map Prod.fst <;> by_cases h2 : d = c <;>
          simp [h1, h2]
      have hB4 : (c :: cs).filter (fun d => decide (d ∉ acc.map Prod.fst)) =
          c :: (cs.filter fun d => decide (d ∉ acc.map Prod.fst)) := by
        rw [List.filter_cons_of_pos]
        simpa using hmem
      rw [hB1, hB1', hB2, dedupFirst_filter, hB4]
      have hB5 : dedupFirst (c :: (cs.filter fun d =>
            decide (d ∉ acc.map Prod.fst))) =
          c :: (dedupFirst (cs.filter fun d =>
            decide (d ∉ acc.map Prod.fst))).filter fun d => d != c := rfl
      rw [hB5]
      simp only [List.map_cons, List.append_assoc, List.singleton_append]
      congr 2
      · rw [count_cons_eq, if_pos rfl]
        simp [Prod.ext_iff]
        try omega
      · apply map_congr_mine
        intro d hd
        have hdc : d ≠ c := by
          have h2 := (List.mem_filter.1 hd).2
          simpa using h2
        rw [count_cons_eq, if_neg hdc]
        simp

/-- The count table of the history scorer: first-occurrence keys paired
with their total counts. -/
lemma countTable_eq (cats : List String) :
    cats.foldl bump [] = (dedupFirst cats).map fun c => (c, cats.count c) := by
  have h := foldl_bump_eq cats [] (by simp)
  simpa using h


/-- Projecting the keys back out of the count-tagged pairs. -/
lemma map_fst_pair (f : String → Nat) : ∀ (l : List String),
    ((l.map fun d => (d, f d)).map fun kv => kv.1) = l
  | [] => rfl
  | c :: cs => by simp [map_fst_pair f cs]

/-- The history scorer equals the amended claim-side algorithm. -/
lemma scorer_eq_amended (clicked cart ordered : List UserInteraction) :
    getUserPreferredCategories clicked cart ordered =
      amendedPreferredCategories clicked cart ordered := by
  simp only [getUserPreferredCategories, amendedPreferredCategories]
  rw [countTable_eq, entriesOrder_map, sortByCountDesc_map, ← List.map_take,
    map_fst_pair]

/-- Two clicked items whose category labels are "b" and "7": the label "7"
is a canonical array-index key, so `Object.entries` enumerates it first. -/
def cexClicked : List UserInteraction :=
  [⟨1, "item b", "b", "2024-01-01", .click⟩,
   ⟨2, "item seven", "7", "2024-01-02", .click⟩]

/-- **C3, counterexample.**  On streams with the categories "b" then "7"
(both seen once) the code returns ["7", "b"] — the array-index label is
enumerated first by `Object.entries` — while the claim's first-occurrence
tie-break demands ["b", "7"]. -/
theorem c3_counterexample :
    getUserPreferredCategories cexClicked [] [] = ["7", "b"] ∧
    claimPreferredCategories cexClicked [] [] = ["b", "7"] ∧
    getUserPreferredCategories cexClicked [] [] ≠
      claimPreferredCategories cexClicked [] [] := by
  refine ⟨by decide, by decide, by decide⟩

/-- **C3, amended.**  The history scorer concatenates the three streams in
order, skips empty category labels, counts occurrences per category, sorts
by descending count with a stable sort, and returns the top 6 — with ties
broken by the count table's enumeration order: categories whose labels are
canonical array-index strings first in ascending numeric order, then the
remaining categories in first-occurrence order.  The output never exceeds
6 entries and never repeats a category. -/
theorem c3_history_scorer (clicked cart ordered : List UserInteraction) :
    getUserPreferredCategories clicked cart ordered =
      amendedPreferredCategories clicked cart ordered ∧
    (getUserPreferredCategories clicked cart ordered).length ≤ 6 ∧
    (getUserPreferredCategories clicked cart ordered).Nodup := by
  refine ⟨scorer_eq_amended clicked cart ordered, ?_, ?_⟩
  · rw [scorer_eq_amended]
    simp only [amendedPreferredCategories]
    exact List.length_take_le _ _
  · rw [scorer_eq_amended]
    simp only [amendedPreferredCategories]
    apply List.Nodup.sublist (List.take_sublist _ _)
    have hperm := (rankByCountDesc_perm
      (fun c => (((clicked ++ cart ++ ordered).map fun i => i.category).filter
        fun c => c != "").count c)
      (entriesOrderStr (dedupFirst (((clicked ++ cart ++ ordered).map
        fun i => i.category).filter fun c => c != "")))).trans
      (entriesOrderStr_perm _)
    exact hperm.nodup_iff.2 (nodup_dedupFirst _)

end DevSpace
